import Mathlib

/-!
Verification development for the safenode client quorum protocol.

The definitions below are a shallow embedding of the client-side quorum
algorithms of `src/safenode/src/client/api.rs` and the replicated-data
addressing of `src/safenode/src/protocol/messages/mod.rs`.  Pure functions
of the Rust source become Lean functions; each fan-out/fan-in loop becomes a
recursion over the list of peer responses in completion order; fallible Rust
code returning `Result` becomes `Except`.  Types whose Rust definitions live
outside these sources (the network layer's constants, the message submodules,
the storage/address types, the error enum) are modelled from the
specification, as marked in their doc comments.
-/

/-- Modelled from the spec: a spend certificate (`sn_dbc::SignedSpend`, not in
these sources).  `dbcId` is the public identifier of the spent dbc and
`content` stands for the rest of the signed content; structural equality of
certificates is equality of both fields, so two certificates with the same
identifier but different content are distinct (a double spend). -/
structure SignedSpend where
  dbcId : Nat
  content : Nat
deriving DecidableEq, Repr

/-- Modelled from the spec: `ChunkAddress` (in `protocol::storage`, not in
these sources) wraps a single 256-bit XOR-space key, modelled as a `Nat`. -/
structure ChunkAddress where
  addrName : Nat
deriving DecidableEq, Repr

/-- Modelled from the spec: `RegisterAddress` wraps the register's 256-bit
name together with its user tag. -/
structure RegisterAddress where
  addrName : Nat
  tag : Nat
deriving DecidableEq, Repr

/-- Modelled from the spec: `DbcAddress` (in `protocol::storage`, not in these
sources) wraps the 256-bit key derived from a dbc identifier. -/
structure DbcAddress where
  addrName : Nat
deriving DecidableEq, Repr

/-- Modelled from the spec: `DbcAddress::from_dbc_id` derives the address key
deterministically from the certificate's public identifier alone ("derived
from the content hash or from the certificate/public identifier").  The
derivation is modelled as the identity embedding of the identifier. -/
def DbcAddress.from_dbc_id (dbcId : Nat) : DbcAddress :=
  ⟨dbcId⟩

/-- Modelled from the spec: a content-addressed chunk (`protocol::storage::Chunk`,
not in these sources): its stored address plus its payload bytes (modelled as
a `Nat`).  On the wire the address field travels with the value, so a decoded
chunk may carry any address. -/
structure Chunk where
  address : ChunkAddress
  value : Nat
deriving DecidableEq, Repr

/-- Modelled from the spec: `Chunk::name` returns the key of the chunk's
address. -/
def Chunk.name (c : Chunk) : Nat :=
  c.address.addrName

/-- Modelled from the spec: a single register cmd (`RegisterCmd`, whose
submodule is not in these sources); it exposes its destination register
address via `dst`, and `op` stands for the payload of the operation. -/
structure RegisterCmd where
  dst : RegisterAddress
  op : Nat
deriving DecidableEq, Repr

/-- Modelled from the spec: an entire op log of a register
(`ReplicatedRegisterLog`), carrying the register's address and the log
payload. -/
structure ReplicatedRegisterLog where
  address : RegisterAddress
  log : Nat
deriving DecidableEq, Repr

/-- Modelled from the spec: `NetworkAddress` is a tagged union over
peer/chunk/register/spend addresses; every variant yields exactly one 256-bit
key. -/
inductive NetworkAddress where
  | peer (key : Nat)
  | chunkAddr (a : ChunkAddress)
  | registerAddr (a : RegisterAddress)
  | dbcAddr (a : DbcAddress)
deriving DecidableEq, Repr

/-- Modelled from the spec: the single 256-bit key of a `NetworkAddress`,
used for all XOR-distance comparisons. -/
def NetworkAddress.key : NetworkAddress → Nat
  | .peer k => k
  | .chunkAddr a => a.addrName
  | .registerAddr a => a.addrName
  | .dbcAddr a => a.addrName

deriving instance DecidableEq for Except

/-- Modelled from the spec: the cmd responses used by the client quorum loops
(`CmdResponse` lives in a message submodule not in these sources; the variants
and their nested per-operation results are as used in `client/api.rs`).
Error payloads are modelled as `Nat` codes. -/
inductive CmdResponse where
  | storeChunk (r : Except Nat Unit)
  | spend (r : Except Nat Unit)
deriving DecidableEq, Repr

/-- Modelled from the spec: the query responses used by the client
(`QueryResponse` lives in a message submodule not in these sources).
`other` stands for every further response kind of the protocol. -/
inductive QueryResponse where
  | getChunk (r : Except Nat Chunk)
  | getDbcSpend (r : Except Nat SignedSpend)
  | other (k : Nat)
deriving DecidableEq, Repr

/-- A response to peers in the network (`protocol/messages/mod.rs`). -/
inductive Response where
  | cmd (c : CmdResponse)
  | query (q : QueryResponse)
deriving DecidableEq, Repr

/-- One peer's answer as seen by the client: either a `Response` or a network
(transport) error, the shape produced by `send_to_closest` / `send_request`
in `client/api.rs`.  Network error payloads are modelled as `Nat` codes. -/
abbrev NetResult := Except Nat Response

/-- The observed-count / required-threshold payload of the
`CouldNotVerifyTransfer` error produced by the quorum loops in
`client/api.rs` (the Rust code formats the two numbers into a message
string). -/
structure QuorumErr where
  got : Nat
  required : Nat
deriving DecidableEq, Repr

/-- Modelled from the spec: the client error taxonomy (`client/error.rs` is
not in these sources; the variants are those used in `client/api.rs`):
a transport/routing `network` error, a peer's explicit application-level
rejection surfaced by the `?` operator (`protocolErr`), the distinct
`unexpectedResponses` protocol-invariant violation, and the
could-not-verify quorum failure. -/
inductive ClientError where
  | network (e : Nat)
  | protocolErr (e : Nat)
  | unexpectedResponses
  | couldNotVerifyTransfer (q : QuorumErr)
deriving DecidableEq, Repr

/-- Whether a peer answer is a strictly successful `StoreChunk`
acknowledgement: the pattern
`Ok(Response::Cmd(CmdResponse::StoreChunk(Ok(()))))` counted by
`Client::store_chunk` (`client/api.rs`). -/
def isStoreOk : NetResult → Bool
  | .ok (.cmd (.storeChunk (.ok _))) => true
  | _ => false

/-- The number of successful `StoreChunk` acknowledgements in a response
vector (`client/api.rs`, the `all_oks` count). -/
def countStoreOks (rs : List NetResult) : Nat :=
  (rs.filter isStoreOk).length

/-- The first explicit `StoreChunk` rejection among the successfully
delivered responses, in response order (`client/api.rs`, the
`responses.iter().flatten()` loop that returns the first
`StoreChunk(Err(_))` via `?`). -/
def firstStoreRejection (rs : List NetResult) : Option Nat :=
  rs.findSome? fun r =>
    match r with
    | .ok (.cmd (.storeChunk (.error e))) => some e
    | _ => none

/-- The first network (transport) error in a response vector, in response
order (`client/api.rs`, the `for resp in responses` loop that propagates the
first `Err` via `?`). -/
def firstNetErr (rs : List NetResult) : Option Nat :=
  rs.findSome? fun r =>
    match r with
    | .error e => some e
    | _ => none

/-- Shallow embedding of `Client::store_chunk` (`client/api.rs`), as a
function of the quorum threshold `m` (`close_group_majority()`) and of the
response vector returned by the network layer: succeed when at least `m`
strict `StoreChunk` acknowledgements are present; otherwise surface the first
explicit rejection, else the first network error, else the distinct
`UnexpectedResponses` condition. -/
def store_chunk (m : Nat) (rs : List NetResult) : Except ClientError Unit :=
  if m ≤ countStoreOks rs then .ok ()
  else
    match firstStoreRejection rs with
    | some e => .error (.protocolErr e)
    | none =>
      match firstNetErr rs with
      | some e => .error (.network e)
      | none => .error .unexpectedResponses

/-- Shallow embedding of `Client::get_chunk` (`client/api.rs`): the outer
`Except` layer is the network layer's own failure (propagated by `?`), the
inner layer is the `Err(err)` arm of the match (propagated unchanged via
`err.into()`); a `GetChunk` payload is unwrapped (its embedded storage error
surfacing via `?`), and any other embedded response kind fails with
`UnexpectedResponses`.  The requested address `a` is used only to form the
record key of the lookup; the returned chunk is not checked against it. -/
def get_chunk (a : Nat) (r : Except Nat (Except Nat QueryResponse)) :
    Except ClientError Chunk :=
  match r with
  | .error e => .error (.network e)
  | .ok inner =>
    match inner with
    | .ok (.getChunk res) =>
      match res with
      | .ok c => .ok c
      | .error e => .error (.protocolErr e)
    | .ok _ => .error .unexpectedResponses
    | .error e => .error (.network e)

/-- Whether a peer answer is a strictly successful `Spend` acknowledgement:
the pattern `Ok(Response::Cmd(CmdResponse::Spend(Ok(()))))` of the first
match arm of `Client::expect_closest_majority_ok` (`client/api.rs`). -/
def isSpendOk : NetResult → Bool
  | .ok (.cmd (.spend (.ok _))) => true
  | _ => false

/-- The number of successful `Spend` acknowledgements in a completion-ordered
response list. -/
def countSpendOks (rs : List NetResult) : Nat :=
  (rs.filter isSpendOk).length

/-- Shallow embedding of the reduction loop of
`Client::expect_closest_majority_ok` (`client/api.rs`): `rs` is the list of
peer answers in completion order (the order `select_all` yields them), `cnt`
is the running `ok_responses` count.  A successful spend acknowledgement
increments the count and the loop returns `Ok` as soon as the count reaches
the threshold `m` (`close_group_majority()`), abandoning the remaining
responses; any other response (unexpected response or network error) is
ignored; when the responses are exhausted the loop fails with the
could-not-verify error carrying the observed count and the threshold. -/
def expect_closest_majority_ok (m : Nat) : List NetResult → Nat → Except QuorumErr Unit
  | [], cnt => .error ⟨cnt, m⟩
  | r :: rs, cnt =>
    if isSpendOk r then
      if m ≤ cnt + 1 then .ok ()
      else expect_closest_majority_ok m rs (cnt + 1)
    else expect_closest_majority_ok m rs cnt

/-- The spend certificate carried by a successfully delivered
`GetDbcSpend(Ok(_))` response, the pattern of the first match arm of
`Client::expect_closest_majority_same` (`client/api.rs`). -/
def spendResponse : NetResult → Option SignedSpend
  | .ok (.query (.getDbcSpend (.ok s))) => some s
  | _ => none

/-- Shallow embedding of the `into_group_map` / `filter` / `max_by_key`
agreement reduction of `Client::expect_closest_majority_same`
(`client/api.rs`): group the accumulated certificates by structural equality,
keep a class of maximal size, and return its representative when that size
reaches the threshold `m`.  (`max_by_key` breaks ties between equal-sized
classes by hash-map order; in every reachable state of the loop at most one
class has reached the threshold, so the choice of tie-break is immaterial.) -/
def majority_agreement (acc : List SignedSpend) (m : Nat) : Option SignedSpend :=
  match acc.argmax (fun s => acc.count s) with
  | some s => if m ≤ acc.count s then some s else none
  | none => none

/-- Shallow embedding of the reduction loop of
`Client::expect_closest_majority_same` (`client/api.rs`): `rs` is the list of
peer answers in completion order, `acc` the `ok_responses` accumulator.  A
successfully delivered spend whose identifier equals the requested `dbcId`
is appended to the accumulator (no per-peer deduplication); after any
successfully delivered spend response the loop checks, once the accumulator
has at least `m` entries, whether some structural-equality class reached the
threshold `m` and returns its certificate if so; unexpected responses and
network errors are ignored; when the responses are exhausted the loop fails
with the could-not-verify error carrying the accumulator length and the
threshold. -/
def expect_closest_majority_same (dbcId m : Nat) :
    List NetResult → List SignedSpend → Except QuorumErr SignedSpend
  | [], acc => .error ⟨acc.length, m⟩
  | r :: rs, acc =>
    match spendResponse r with
    | some s =>
      let acc2 := if s.dbcId = dbcId then acc ++ [s] else acc
      if m ≤ acc2.length then
        match majority_agreement acc2 m with
        | some c => .ok c
        | none => expect_closest_majority_same dbcId m rs acc2
      else expect_closest_majority_same dbcId m rs acc2
    | none => expect_closest_majority_same dbcId m rs acc

/-- The subsequence of certificates that
`Client::expect_closest_majority_same` accumulates from a completion-ordered
response list: those of successfully delivered `GetDbcSpend(Ok(_))` responses
whose identifier equals the requested one. -/
def matchingSpends (dbcId : Nat) (rs : List NetResult) : List SignedSpend :=
  rs.filterMap fun r =>
    (spendResponse r).bind fun s => if s.dbcId = dbcId then some s else none

/-- The certificate-only core of the `expect_closest_majority_same` loop:
append each accumulated certificate in turn and return the first certificate
whose structural-equality class reaches the threshold `m`, failing with the
could-not-verify error once the certificates are exhausted. -/
def same_loop (m : Nat) : List SignedSpend → List SignedSpend → Except QuorumErr SignedSpend
  | [], acc => .error ⟨acc.length, m⟩
  | s :: cs, acc =>
    let acc2 := acc ++ [s]
    if m ≤ acc2.length then
      match majority_agreement acc2 m with
      | some c => .ok c
      | none => same_loop m cs acc2
    else same_loop m cs acc2

/-- Modelled from the spec: the close-group majority function
(`close_group_majority()` lives in the network layer, outside these sources):
for a group of size `n` the quorum threshold is `floor(n/2) + 1`. -/
def majority (n : Nat) : Nat :=
  n / 2 + 1

/-- The single client event broadcast on the client events channel
(`client/api.rs` and the client module: the only variant the bootstrap wait
matches on). -/
inductive ClientEvent where
  | connectedToNetwork
deriving DecidableEq, Repr

/-- One outcome of `client_events_rx.recv().await` in the bootstrap wait loop
of `Client::new` (`client/api.rs`): either a delivered client event, or the
receive error of the broadcast channel (closed or lagged), which the loop's
`if let Ok(event)` silently skips.  Once the channel is closed every further
receive yields `recvErr` again. -/
inductive RecvResult where
  | okEvent (e : ClientEvent)
  | recvErr
deriving DecidableEq, Repr

/-- Shallow embedding of the bootstrap wait loop of `Client::new`
(`client/api.rs`, `while added_node <= CLOSE_GROUP_SIZE`): `cgs` is
`CLOSE_GROUP_SIZE`, `added` the `added_node` counter, and the list holds the
successive outcomes of `recv()`.  `some ()` means the loop has exited and
`Client::new` returns the usable client; `none` means the given receive
outcomes are exhausted with the loop still waiting (the loop body has no
other exit: a receive error is skipped and counts nothing). -/
def bootstrap_wait (cgs : Nat) : List RecvResult → Nat → Option Unit
  | [], added => if cgs < added then some () else none
  | r :: rs, added =>
    if cgs < added then some ()
    else
      match r with
      | .okEvent .connectedToNetwork => bootstrap_wait cgs rs (added + 1)
      | .recvErr => bootstrap_wait cgs rs added

/-- The number of delivered `ConnectedToNetwork` events in a receive-outcome
list. -/
def countConnected (evs : List RecvResult) : Nat :=
  (evs.filter fun r => r = .okEvent .connectedToNetwork).length

/-- The network events matched by `Client::handle_network_event`
(`client/api.rs`; the `NetworkEvent` enum itself lives in the network layer,
outside these sources, so its payloads are modelled as `Nat` codes). -/
inductive NetworkEvent where
  | requestReceived (req : Nat)
  | newListenAddr (addr : Nat)
  | peerAdded (peer : Nat)
deriving DecidableEq, Repr

/-- The client state touched by the background event loop: the sequence of
client events broadcast on the events channel so far. -/
structure ClientState where
  broadcastEvents : List ClientEvent
deriving DecidableEq, Repr

/-- Shallow embedding of `Client::handle_network_event` (`client/api.rs`):
requests and new listen addresses are ignored; a `PeerAdded` event broadcasts
`ConnectedToNetwork` on the events channel (the asynchronous closest-peer
probe it also spawns is observed only for diagnostics and touches no client
state).  Every arm returns `Ok`, so the handler never fails. -/
def handle_network_event (st : ClientState) (e : NetworkEvent) : Except Nat ClientState :=
  match e with
  | .requestReceived _ => .ok st
  | .newListenAddr _ => .ok st
  | .peerAdded _ =>
    .ok { st with broadcastEvents := st.broadcastEvents ++ [.connectedToNetwork] }

/-- One iteration of the background network-event loop spawned by
`Client::new` (`client/api.rs`): `none` models `recv()` returning `None`
(closed channel), which the loop logs and `continue`s past, leaving the state
unchanged; `some e` models a delivered event, handled by
`handle_network_event`, a handler error being logged and otherwise ignored.
The loop body has no break or return: every iteration yields a next state. -/
def event_loop_step (st : ClientState) (msg : Option NetworkEvent) : ClientState :=
  match msg with
  | none => st
  | some e =>
    match handle_network_event st e with
    | .ok st2 => st2
    | .error _ => st

/-- The background event loop run over a finite prefix of its incoming
receive outcomes. -/
def event_loop_run (msgs : List (Option NetworkEvent)) (st : ClientState) : ClientState :=
  msgs.foldl event_loop_step st

/-- Messages to replicate data among nodes on the network
(`protocol/messages/mod.rs`, `ReplicatedData`); the `DoubleSpend` variant
carries a `BTreeSet` of spend certificates, modelled as a `Finset`. -/
inductive ReplicatedData where
  | chunk (c : Chunk)
  | registerWrite (cmd : RegisterCmd)
  | registerLog (log : ReplicatedRegisterLog)
  | validSpend (s : SignedSpend)
  | doubleSpend (a : DbcAddress) (spends : Finset SignedSpend)
deriving DecidableEq

/-- Shallow embedding of `ReplicatedData::name` (`protocol/messages/mod.rs`). -/
def ReplicatedData.name : ReplicatedData → Nat
  | .chunk c => c.name
  | .registerWrite cmd => cmd.dst.addrName
  | .registerLog log => log.address.addrName
  | .validSpend s => (DbcAddress.from_dbc_id s.dbcId).addrName
  | .doubleSpend a _ => a.addrName

/-- Shallow embedding of `ReplicatedData::dst` (`protocol/messages/mod.rs`). -/
def ReplicatedData.dst : ReplicatedData → NetworkAddress
  | .chunk c => .chunkAddr c.address
  | .registerWrite cmd => .registerAddr cmd.dst
  | .registerLog log => .registerAddr log.address
  | .validSpend s => .dbcAddr (DbcAddress.from_dbc_id s.dbcId)
  | .doubleSpend a _ => .dbcAddr a

/-- The spend address a certificate claims: the dbc address derived from its
identifier (`DbcAddress::from_dbc_id(spend.dbc_id())`). -/
def spendAddress (s : SignedSpend) : DbcAddress :=
  DbcAddress.from_dbc_id s.dbcId

/-- Modelled from the spec: the node-side construction of `DoubleSpend`
evidence (not in these sources) — from genuine conflict evidence, namely two
distinct certificates claiming the same spend address, build the
`DoubleSpend` value holding the unordered set of the conflicting
certificates. -/
def mkDoubleSpend (a : DbcAddress) (s1 s2 : SignedSpend) : ReplicatedData :=
  .doubleSpend a ({s1, s2} : Finset SignedSpend)

/-! Helper lemmas about the agreement reduction and the quorum loops. -/

theorem same_loop_nil (m : Nat) (acc : List SignedSpend) :
    same_loop m [] acc = .error ⟨acc.length, m⟩ := rfl

theorem same_loop_cons (m : Nat) (s : SignedSpend) (cs acc : List SignedSpend) :
    same_loop m (s :: cs) acc =
      if m ≤ (acc ++ [s]).length then
        match majority_agreement (acc ++ [s]) m with
        | some c => .ok c
        | none => same_loop m cs (acc ++ [s])
      else same_loop m cs (acc ++ [s]) := rfl

theorem majority_agreement_eq_none (acc : List SignedSpend) (m : Nat)
    (h : ∀ d ∈ acc, acc.count d < m) : majority_agreement acc m = none := by
  unfold majority_agreement
  cases hg : acc.argmax (fun s => acc.count s) with
  | none => rfl
  | some s =>
    have hs : s ∈ acc := List.argmax_mem (Option.mem_def.mpr hg)
    simp [Nat.not_le.mpr (h s hs)]

theorem majority_agreement_none_of_length_lt (acc : List SignedSpend) (m : Nat)
    (h : acc.length < m) : majority_agreement acc m = none :=
  majority_agreement_eq_none acc m fun d _ =>
    lt_of_le_of_lt (List.count_le_length d acc) h

theorem majority_agreement_nil (m : Nat) : majority_agreement [] m = none := by
  unfold majority_agreement
  simp [List.argmax_nil]

theorem majority_agreement_count (acc : List SignedSpend) (m : Nat) (c : SignedSpend)
    (h : majority_agreement acc m = some c) : c ∈ acc ∧ m ≤ acc.count c := by
  unfold majority_agreement at h
  split at h
  next s hg =>
    split at h
    next hm => cases h; exact ⟨List.argmax_mem (Option.mem_def.mpr hg), hm⟩
    next => exact absurd h (by simp)
  next => exact absurd h (by simp)

theorem count_append_left_le (d : SignedSpend) (l1 l2 : List SignedSpend) :
    l1.count d ≤ (l1 ++ l2).count d := by
  rw [List.count_append]
  omega

theorem same_loop_error_of_no_majority (m : Nat) :
    ∀ (cs acc : List SignedSpend), (∀ d, (acc ++ cs).count d < m) →
      same_loop m cs acc = .error ⟨acc.length + cs.length, m⟩ := by
  intro cs
  induction cs with
  | nil => intro acc _; simp [same_loop_nil]
  | cons s cs ih =>
    intro acc h
    have hsplit : acc ++ s :: cs = (acc ++ [s]) ++ cs := by simp
    have hcount : ∀ d, ((acc ++ [s]) ++ cs).count d < m := by
      intro d; rw [← hsplit]; exact h d
    have hlt : ∀ d ∈ acc ++ [s], (acc ++ [s]).count d < m := fun d _ =>
      lt_of_le_of_lt (count_append_left_le d (acc ++ [s]) cs) (hcount d)
    have hagg := majority_agreement_eq_none (acc ++ [s]) m hlt
    have hrec := ih (acc ++ [s]) hcount
    have hlen : (acc ++ [s]).length + cs.length = acc.length + (s :: cs).length := by
      simp; omega
    rw [same_loop_cons]
    by_cases hguard : m ≤ (acc ++ [s]).length
    · rw [if_pos hguard, hagg, hrec, hlen]
    · rw [if_neg hguard, hrec, hlen]

theorem same_loop_ok_count (m : Nat) :
    ∀ (cs acc : List SignedSpend) (c : SignedSpend),
      same_loop m cs acc = .ok c → m ≤ (acc ++ cs).count c := by
  intro cs
  induction cs with
  | nil => intro acc c h; exact absurd h (by simp [same_loop_nil])
  | cons s cs ih =>
    intro acc c h
    have hsplit : acc ++ s :: cs = (acc ++ [s]) ++ cs := by simp
    rw [hsplit]
    rw [same_loop_cons] at h
    by_cases hguard : m ≤ (acc ++ [s]).length
    · rw [if_pos hguard] at h
      cases hagg : majority_agreement (acc ++ [s]) m with
      | none => rw [hagg] at h; exact ih (acc ++ [s]) c h
      | some c0 =>
        rw [hagg] at h
        have h2 : (Except.ok c0 : Except QuorumErr SignedSpend) = Except.ok c := h
        injection h2 with hc
        subst hc
        exact le_trans (majority_agreement_count (acc ++ [s]) m c0 hagg).2
          (count_append_left_le c0 (acc ++ [s]) cs)
    · rw [if_neg hguard] at h
      exact ih (acc ++ [s]) c h

theorem same_loop_ok_append (m : Nat) :
    ∀ (l1 l2 acc : List SignedSpend) (c : SignedSpend),
      same_loop m l1 acc = .ok c → same_loop m (l1 ++ l2) acc = .ok c := by
  intro l1
  induction l1 with
  | nil => intro l2 acc c h; exact absurd h (by simp [same_loop_nil])
  | cons s l1 ih =>
    intro l2 acc c h
    rw [same_loop_cons] at h
    rw [List.cons_append, same_loop_cons]
    by_cases hguard : m ≤ (acc ++ [s]).length
    · rw [if_pos hguard] at h ⊢
      cases hagg : majority_agreement (acc ++ [s]) m with
      | none => rw [hagg] at h; exact ih l2 (acc ++ [s]) c h
      | some c0 => rw [hagg] at h; exact h
    · rw [if_neg hguard] at h ⊢
      exact ih l2 (acc ++ [s]) c h

theorem expect_same_nil (dbcId m : Nat) (acc : List SignedSpend) :
    expect_closest_majority_same dbcId m [] acc = .error ⟨acc.length, m⟩ := rfl

theorem expect_same_cons (dbcId m : Nat) (r : NetResult) (rs : List NetResult)
    (acc : List SignedSpend) :
    expect_closest_majority_same dbcId m (r :: rs) acc =
      match spendResponse r with
      | some s =>
        if m ≤ (if s.dbcId = dbcId then acc ++ [s] else acc).length then
          match majority_agreement (if s.dbcId = dbcId then acc ++ [s] else acc) m with
          | some c => .ok c
          | none =>
            expect_closest_majority_same dbcId m rs
              (if s.dbcId = dbcId then acc ++ [s] else acc)
        else
          expect_closest_majority_same dbcId m rs
            (if s.dbcId = dbcId then acc ++ [s] else acc)
      | none => expect_closest_majority_same dbcId m rs acc := rfl

theorem matchingSpends_nil (dbcId : Nat) : matchingSpends dbcId [] = [] := rfl

theorem matchingSpends_cons (dbcId : Nat) (r : NetResult) (rs : List NetResult) :
    matchingSpends dbcId (r :: rs) =
      match (spendResponse r).bind
          (fun s => if s.dbcId = dbcId then some s else none) with
      | some s => s :: matchingSpends dbcId rs
      | none => matchingSpends dbcId rs := by
  cases h : (spendResponse r).bind (fun s => if s.dbcId = dbcId then some s else none) with
  | none => simp [matchingSpends, List.filterMap_cons, h]
  | some s => simp [matchingSpends, List.filterMap_cons, h]

theorem expect_same_eq_same_loop (dbcId m : Nat) :
    ∀ (rs : List NetResult) (acc : List SignedSpend),
      majority_agreement acc m = none →
      expect_closest_majority_same dbcId m rs acc =
        same_loop m (matchingSpends dbcId rs) acc := by
  intro rs
  induction rs with
  | nil => intro acc _; rfl
  | cons r rs ih =>
    intro acc hacc
    cases hr : spendResponse r with
    | none =>
      have h1 : expect_closest_majority_same dbcId m (r :: rs) acc
          = expect_closest_majority_same dbcId m rs acc := by
        simp only [expect_closest_majority_same, hr]
      have h2 : matchingSpends dbcId (r :: rs) = matchingSpends dbcId rs := by
        simp only [matchingSpends, List.filterMap_cons, hr, Option.none_bind]
      rw [h1, h2]
      exact ih acc hacc
    | some s =>
      by_cases hid : s.dbcId = dbcId
      · have h2 : matchingSpends dbcId (r :: rs) = s :: matchingSpends dbcId rs := by
          simp only [matchingSpends, List.filterMap_cons, hr, Option.some_bind, hid,
            if_pos]
        have h1 : expect_closest_majority_same dbcId m (r :: rs) acc =
            if m ≤ (acc ++ [s]).length then
              match majority_agreement (acc ++ [s]) m with
              | some c => Except.ok c
              | none => expect_closest_majority_same dbcId m rs (acc ++ [s])
            else expect_closest_majority_same dbcId m rs (acc ++ [s]) := by
          simp only [expect_closest_majority_same, hr, hid, if_pos]
        rw [h1, h2, same_loop_cons]
        by_cases hguard : m ≤ (acc ++ [s]).length
        · rw [if_pos hguard, if_pos hguard]
          cases hagg : majority_agreement (acc ++ [s]) m with
          | some c => rfl
          | none => exact ih (acc ++ [s]) hagg
        · rw [if_neg hguard, if_neg hguard]
          exact ih (acc ++ [s])
            (majority_agreement_none_of_length_lt (acc ++ [s]) m (Nat.lt_of_not_le hguard))
      · have h2 : matchingSpends dbcId (r :: rs) = matchingSpends dbcId rs := by
          simp only [matchingSpends, List.filterMap_cons, hr, Option.some_bind,
            if_neg hid]
        have h1 : expect_closest_majority_same dbcId m (r :: rs) acc =
            if m ≤ acc.length then
              match majority_agreement acc m with
              | some c => Except.ok c
              | none => expect_closest_majority_same dbcId m rs acc
            else expect_closest_majority_same dbcId m rs acc := by
          simp only [expect_closest_majority_same, hr, if_neg hid]
        rw [h1, h2, hacc]
        by_cases hguard : m ≤ acc.length
        · rw [if_pos hguard]
          exact ih acc hacc
        · rw [if_neg hguard]
          exact ih acc hacc

theorem countSpendOks_nil : countSpendOks [] = 0 := rfl

theorem countSpendOks_cons (r : NetResult) (rs : List NetResult) :
    countSpendOks (r :: rs) = (if isSpendOk r then 1 else 0) + countSpendOks rs := by
  by_cases h : isSpendOk r <;>
    simp [countSpendOks, List.filter_cons, h] <;> omega

theorem countSpendOks_append (l1 l2 : List NetResult) :
    countSpendOks (l1 ++ l2) = countSpendOks l1 + countSpendOks l2 := by
  simp [countSpendOks, List.filter_append]

theorem expect_ok_nil (m cnt : Nat) :
    expect_closest_majority_ok m [] cnt = .error ⟨cnt, m⟩ := rfl

theorem expect_ok_cons (m : Nat) (r : NetResult) (rs : List NetResult) (cnt : Nat) :
    expect_closest_majority_ok m (r :: rs) cnt =
      if isSpendOk r then
        if m ≤ cnt + 1 then .ok ()
        else expect_closest_majority_ok m rs (cnt + 1)
      else expect_closest_majority_ok m rs cnt := rfl

theorem expect_ok_char (m : Nat) :
    ∀ (rs : List NetResult) (cnt : Nat), cnt < m →
      expect_closest_majority_ok m rs cnt =
        if m ≤ cnt + countSpendOks rs then .ok ()
        else .error ⟨cnt + countSpendOks rs, m⟩ := by
  intro rs
  induction rs with
  | nil =>
    intro cnt h
    rw [expect_ok_nil, countSpendOks_nil, if_neg (by omega)]
    simp
  | cons r rs ih =>
    intro cnt h
    rw [expect_ok_cons, countSpendOks_cons]
    by_cases hk : isSpendOk r
    · rw [if_pos hk, if_pos hk]
      by_cases h1 : m ≤ cnt + 1
      · rw [if_pos h1, if_pos (by omega)]
      · rw [if_neg h1, ih (cnt + 1) (by omega)]
        have harith : cnt + 1 + countSpendOks rs = cnt + (1 + countSpendOks rs) := by
          omega
        rw [harith]
    · rw [if_neg hk, if_neg hk, ih cnt h]
      have harith : cnt + countSpendOks rs = cnt + (0 + countSpendOks rs) := by omega
      rw [harith]

theorem bootstrap_wait_nil (cgs added : Nat) :
    bootstrap_wait cgs [] added = if cgs < added then some () else none := rfl

theorem bootstrap_wait_cons (cgs : Nat) (r : RecvResult) (rs : List RecvResult)
    (added : Nat) :
    bootstrap_wait cgs (r :: rs) added =
      if cgs < added then some ()
      else
        match r with
        | .okEvent .connectedToNetwork => bootstrap_wait cgs rs (added + 1)
        | .recvErr => bootstrap_wait cgs rs added := rfl

theorem bootstrap_wait_of_done (cgs : Nat) :
    ∀ (evs : List RecvResult) (added : Nat), cgs < added →
      bootstrap_wait cgs evs added = some () := by
  intro evs
  cases evs with
  | nil => intro added h; rw [bootstrap_wait_nil, if_pos h]
  | cons r rs => intro added h; rw [bootstrap_wait_cons, if_pos h]

theorem countConnected_nil : countConnected [] = 0 := rfl

theorem countConnected_cons (r : RecvResult) (rs : List RecvResult) :
    countConnected (r :: rs) =
      (if r = .okEvent .connectedToNetwork then 1 else 0) + countConnected rs := by
  by_cases h : r = .okEvent .connectedToNetwork <;>
    simp [countConnected, List.filter_cons, h] <;> omega

theorem countConnected_append (l1 l2 : List RecvResult) :
    countConnected (l1 ++ l2) = countConnected l1 + countConnected l2 := by
  simp [countConnected, List.filter_append]

theorem countConnected_replicate_err (k : Nat) :
    countConnected (List.replicate k .recvErr) = 0 := by
  induction k with
  | zero => rfl
  | succ k ih => rw [List.replicate_succ, countConnected_cons, ih]; simp

theorem bootstrap_wait_step_conn (cgs : Nat) (rs : List RecvResult) (added : Nat)
    (h : ¬ cgs < added) :
    bootstrap_wait cgs (.okEvent .connectedToNetwork :: rs) added =
      bootstrap_wait cgs rs (added + 1) := by
  rw [bootstrap_wait_cons, if_neg h]

theorem bootstrap_wait_step_err (cgs : Nat) (rs : List RecvResult) (added : Nat)
    (h : ¬ cgs < added) :
    bootstrap_wait cgs (.recvErr :: rs) added = bootstrap_wait cgs rs added := by
  rw [bootstrap_wait_cons, if_neg h]

theorem bootstrap_wait_char (cgs : Nat) :
    ∀ (evs : List RecvResult) (added : Nat), added ≤ cgs →
      (bootstrap_wait cgs evs added = some () ↔
        cgs + 1 ≤ added + countConnected evs) := by
  intro evs
  induction evs with
  | nil =>
    intro added h
    rw [bootstrap_wait_nil, if_neg (by omega), countConnected_nil]
    constructor
    · intro hn; exact absurd hn (by simp)
    · intro hn; exact absurd hn (by omega)
  | cons r rs ih =>
    intro added h
    cases r with
    | okEvent e =>
      cases e
      rw [bootstrap_wait_step_conn cgs rs added (by omega), countConnected_cons]
      have hone : ((if (RecvResult.okEvent ClientEvent.connectedToNetwork
          = RecvResult.okEvent ClientEvent.connectedToNetwork) then 1 else 0) : Nat)
          = 1 := by simp
      rw [hone]
      by_cases h2 : added + 1 ≤ cgs
      · rw [ih (added + 1) h2]
        omega
      · rw [bootstrap_wait_of_done cgs rs (added + 1) (by omega)]
        constructor
        · intro _; omega
        · intro _; rfl
    | recvErr =>
      rw [bootstrap_wait_step_err cgs rs added (by omega), countConnected_cons]
      have hzero : ((if (RecvResult.recvErr
          = RecvResult.okEvent ClientEvent.connectedToNetwork) then 1 else 0) : Nat)
          = 0 := by simp
      rw [hzero, ih added h]
      omega

theorem findSome_cons_eq {α β : Type} (f : α → Option β) (a : α) (l : List α) :
    (a :: l).findSome? f =
      match f a with
      | some b => some b
      | none => l.findSome? f := rfl

theorem findSome_append_of_none {α β : Type} (f : α → Option β) :
    ∀ (l1 l2 : List α), l1.findSome? f = none →
      (l1 ++ l2).findSome? f = l2.findSome? f := by
  intro l1
  induction l1 with
  | nil => intro l2 _; rfl
  | cons a l1 ih =>
    intro l2 h
    rw [findSome_cons_eq] at h
    rw [List.cons_append, findSome_cons_eq]
    cases hfa : f a with
    | some b => rw [hfa] at h; exact absurd h (by simp)
    | none =>
      rw [hfa] at h
      exact ih l2 h

theorem firstStoreRejection_split (l1 l2 : List NetResult) (e : Nat)
    (h : firstStoreRejection l1 = none) :
    firstStoreRejection (l1 ++ .ok (.cmd (.storeChunk (.error e))) :: l2) = some e := by
  unfold firstStoreRejection at h ⊢
  rw [findSome_append_of_none _ l1 _ h]
  rfl

theorem firstNetErr_split (l1 l2 : List NetResult) (e : Nat)
    (h : firstNetErr l1 = none) :
    firstNetErr (l1 ++ .error e :: l2) = some e := by
  unfold firstNetErr at h ⊢
  rw [findSome_append_of_none _ l1 _ h]
  rfl

theorem countStoreOks_perm (rs1 rs2 : List NetResult) (h : rs1.Perm rs2) :
    countStoreOks rs1 = countStoreOks rs2 :=
  (h.filter isStoreOk).length_eq

/-! The claim theorems. -/

/-- C1: fetch-with-majority-agreement (`Client::expect_closest_majority_same`).
For every completion-ordered response list, the loop's outcome is that of the
pure reduction over exactly the matching-identifier certificates — so
non-matching identifiers, unexpected responses and network errors are ignored
and each matching certificate is appended with no per-peer deduplication; a
returned certificate always has a structural-equality class of size at least
the threshold; when no class ever reaches the threshold the loop fails with
the could-not-verify error carrying the number of accumulated certificates
and the threshold; responses after a prefix that already decided the call do
not change the outcome; and concretely, for a group of size 3 with threshold
2, responses A, A, B yield A while responses A, B, C fail with the error
carrying count 3 and threshold 2. -/
theorem spendFetch_majority_agreement_spec :
    (∀ (dbcId m : Nat) (rs : List NetResult),
        expect_closest_majority_same dbcId m rs [] =
          same_loop m (matchingSpends dbcId rs) []) ∧
    (∀ (m : Nat) (certs : List SignedSpend) (c : SignedSpend),
        same_loop m certs [] = .ok c → m ≤ certs.count c) ∧
    (∀ (m : Nat) (certs : List SignedSpend), 1 ≤ m →
        (∀ d ∈ certs, certs.count d < m) →
        same_loop m certs [] = .error ⟨certs.length, m⟩) ∧
    (∀ (m : Nat) (l1 l2 : List SignedSpend) (c : SignedSpend),
        same_loop m l1 [] = .ok c → same_loop m (l1 ++ l2) [] = .ok c) ∧
    expect_closest_majority_same 7 2
      [.ok (.query (.getDbcSpend (.ok ⟨7, 0⟩))),
       .ok (.query (.getDbcSpend (.ok ⟨7, 0⟩))),
       .ok (.query (.getDbcSpend (.ok ⟨7, 1⟩)))] [] = .ok ⟨7, 0⟩ ∧
    expect_closest_majority_same 7 2
      [.ok (.query (.getDbcSpend (.ok ⟨7, 0⟩))),
       .ok (.query (.getDbcSpend (.ok ⟨7, 1⟩))),
       .ok (.query (.getDbcSpend (.ok ⟨7, 2⟩)))] [] = .error ⟨3, 2⟩ := by
  refine ⟨?_, ?_, ?_, ?_, by decide, by decide⟩
  · intro dbcId m rs
    exact expect_same_eq_same_loop dbcId m rs [] (majority_agreement_nil m)
  · intro m certs c h
    have := same_loop_ok_count m certs [] c h
    simpa using this
  · intro m certs hm hcount
    have hall : ∀ d, (([] : List SignedSpend) ++ certs).count d < m := by
      intro d
      by_cases hd : d ∈ certs
      · simpa using hcount d hd
      · simp [List.count_eq_zero_of_not_mem hd]
        omega
    have := same_loop_error_of_no_majority m certs [] hall
    simpa using this
  · intro m l1 l2 c h
    exact same_loop_ok_append m l1 l2 [] c h

/-- Witness for C1: the no-agreeing-class branch evaluated at the concrete
all-distinct certificate list of the claim. -/
theorem spendFetch_majority_agreement_witness :
    same_loop 2 [⟨7, 0⟩, ⟨7, 1⟩, ⟨7, 2⟩] [] = .error ⟨3, 2⟩ :=
  spendFetch_majority_agreement_spec.2.2.1 2 [⟨7, 0⟩, ⟨7, 1⟩, ⟨7, 2⟩]
    (by decide) (by decide)

/-- C2: store-with-majority-ack (`Client::store_chunk`) succeeds exactly when
the number of strict `StoreChunk` acknowledgements in the response vector
reaches the quorum threshold, and this success outcome is invariant under
permutation of the responses (arrival order and interleaved errors are
irrelevant). -/
theorem storeChunk_majority_ack_spec (m : Nat) :
    (∀ rs, store_chunk m rs = .ok () ↔ m ≤ countStoreOks rs) ∧
    (∀ rs1 rs2, rs1.Perm rs2 →
        (store_chunk m rs1 = .ok () ↔ store_chunk m rs2 = .ok ())) := by
  have hok : ∀ rs, store_chunk m rs = .ok () ↔ m ≤ countStoreOks rs := by
    intro rs
    unfold store_chunk
    by_cases h : m ≤ countStoreOks rs
    · simp [h]
    · rw [if_neg h]
      constructor
      · intro hc
        exfalso
        cases h1 : firstStoreRejection rs with
        | some e => rw [h1] at hc; exact Except.noConfusion hc
        | none =>
          rw [h1] at hc
          cases h2 : firstNetErr rs with
          | some e => rw [h2] at hc; exact Except.noConfusion hc
          | none => rw [h2] at hc; exact Except.noConfusion hc
      · intro hc; exact absurd hc h
  refine ⟨hok, ?_⟩
  intro rs1 rs2 hperm
  rw [hok rs1, hok rs2, countStoreOks_perm rs1 rs2 hperm]

/-- Witness for C2: a success with an interleaved network error, and the same
outcome after swapping the arrival order. -/
theorem storeChunk_majority_ack_witness :
    store_chunk 1 [.error 2, .ok (.cmd (.storeChunk (.ok ())))] = .ok () ∧
    store_chunk 1 [.ok (.cmd (.storeChunk (.ok ()))), .error 2] = .ok () := by
  constructor
  · exact ((storeChunk_majority_ack_spec 1).1 _).mpr (by decide)
  · exact ((storeChunk_majority_ack_spec 1).2
      [.error 2, .ok (.cmd (.storeChunk (.ok ())))]
      [.ok (.cmd (.storeChunk (.ok ()))), .error 2]
      (List.Perm.swap (Except.ok (Response.cmd (CmdResponse.storeChunk (Except.ok ()))))
        (Except.error 2) ([] : List NetResult))).mp
      (((storeChunk_majority_ack_spec 1).1 _).mpr (by decide))

/-- C3: broadcast-with-majority-ack (`Client::expect_closest_majority_ok`).
With any threshold of at least one: the loop succeeds exactly when the
completion-ordered responses contain at least the threshold number of
successful spend acknowledgements; below the threshold it fails with the
could-not-verify error carrying the observed success count and the threshold;
a non-acknowledgement response (unexpected response or network error) is
skipped without surfacing; and once a prefix alone contains a quorum of
acknowledgements the call succeeds whatever responses are still in flight. -/
theorem spendBroadcast_majority_ok_spec (m : Nat) (hm : 1 ≤ m) :
    (∀ rs, expect_closest_majority_ok m rs 0 = .ok () ↔ m ≤ countSpendOks rs) ∧
    (∀ rs, countSpendOks rs < m →
        expect_closest_majority_ok m rs 0 = .error ⟨countSpendOks rs, m⟩) ∧
    (∀ (r : NetResult) (rs : List NetResult) (cnt : Nat), isSpendOk r = false →
        expect_closest_majority_ok m (r :: rs) cnt =
          expect_closest_majority_ok m rs cnt) ∧
    (∀ l1 l2, m ≤ countSpendOks l1 →
        expect_closest_majority_ok m (l1 ++ l2) 0 = .ok ()) := by
  have h0 : (0 : Nat) < m := hm
  refine ⟨?_, ?_, ?_, ?_⟩
  · intro rs
    rw [expect_ok_char m rs 0 h0]
    constructor
    · intro hres
      by_cases h : m ≤ 0 + countSpendOks rs
      · omega
      · rw [if_neg h] at hres
        exact absurd hres (by simp)
    · intro hle
      rw [if_pos (by omega)]
  · intro rs hlt
    rw [expect_ok_char m rs 0 h0, if_neg (by omega)]
    simp
  · intro r rs cnt hfalse
    rw [expect_ok_cons]
    simp [hfalse]
  · intro l1 l2 hle
    rw [expect_ok_char m (l1 ++ l2) 0 h0,
      if_pos (by rw [countSpendOks_append]; omega)]

/-- Witness for C3: threshold 2 reached by two acknowledgements around an
ignored network error. -/
theorem spendBroadcast_majority_ok_witness :
    expect_closest_majority_ok 2
      [.ok (.cmd (.spend (.ok ()))), .error 9, .ok (.cmd (.spend (.ok ())))] 0
      = .ok () :=
  ((spendBroadcast_majority_ok_spec 2 (by decide)).1
    [.ok (.cmd (.spend (.ok ()))), .error 9, .ok (.cmd (.spend (.ok ())))]).mpr
    (by decide)

/-- C4: store-with-majority-ack error priority (`Client::store_chunk`).
When no quorum of successes is reached: if the response vector contains an
explicit `StoreChunk` rejection preceded by no other rejection, that first
rejection is surfaced (even when network errors occur anywhere, including
earlier); when no rejection is present, the first network error is surfaced;
and when neither is present the call fails with the distinct
`UnexpectedResponses` condition. -/
theorem storeChunk_error_priority_spec (m : Nat) (rs : List NetResult)
    (hmaj : countStoreOks rs < m) :
    (∀ l1 e l2, rs = l1 ++ .ok (.cmd (.storeChunk (.error e))) :: l2 →
        firstStoreRejection l1 = none →
        store_chunk m rs = .error (.protocolErr e)) ∧
    (∀ l1 e l2, firstStoreRejection rs = none →
        rs = l1 ++ .error e :: l2 → firstNetErr l1 = none →
        store_chunk m rs = .error (.network e)) ∧
    (firstStoreRejection rs = none → firstNetErr rs = none →
        store_chunk m rs = .error .unexpectedResponses) := by
  refine ⟨?_, ?_, ?_⟩
  · intro l1 e l2 hsplit hnone
    subst hsplit
    unfold store_chunk
    rw [if_neg (by omega), firstStoreRejection_split l1 l2 e hnone]
  · intro l1 e l2 hrejnone hsplit hnone
    subst hsplit
    unfold store_chunk
    rw [if_neg (by omega), hrejnone, firstNetErr_split l1 l2 e hnone]
  · intro h1 h2
    unfold store_chunk
    rw [if_neg (by omega), h1, h2]

/-- Witness for C4: with threshold 2, a network error arriving before an
explicit rejection: the rejection is surfaced, not the earlier network
error. -/
theorem storeChunk_error_priority_witness :
    store_chunk 2 [.error 9, .ok (.cmd (.storeChunk (.error 5)))]
      = .error (.protocolErr 5) :=
  (storeChunk_error_priority_spec 2
    [.error 9, .ok (.cmd (.storeChunk (.error 5)))] (by decide)).1
    [.error 9] 5 [] rfl (by decide)

/-- Counterexample for C5: a network payload embedding a successfully
delivered chunk whose name is 5 answers a request for address 3 — the call
succeeds and returns that chunk even though its name differs from the
requested address, so a successful `get_chunk` does not guarantee the
returned chunk's name equals the requested address. -/
theorem getChunk_name_unchecked_counterexample :
    get_chunk 3 (.ok (.ok (.getChunk (.ok ⟨⟨5⟩, 0⟩)))) = .ok ⟨⟨5⟩, 0⟩ ∧
    Chunk.name ⟨⟨5⟩, 0⟩ ≠ 3 := by
  decide

/-- C5 (amended): fetch-by-content-hash (`Client::get_chunk`).  A successful
call returns exactly the chunk embedded in the network layer's
`GetChunk(Ok(_))` payload — no verification of the chunk's name against the
requested address is performed; a payload embedding any other response kind
fails with `UnexpectedResponses`; a network-layer failure (either layer) is
propagated as the call's error carrying the same payload; and an embedded
`GetChunk(Err(_))` storage error surfaces through the result operator. -/
theorem getChunk_spec :
    (∀ (a : Nat) (c : Chunk) (r : Except Nat (Except Nat QueryResponse)),
        get_chunk a r = .ok c ↔ r = .ok (.ok (.getChunk (.ok c)))) ∧
    (∀ (a : Nat) (res : Except Nat SignedSpend),
        get_chunk a (.ok (.ok (.getDbcSpend res))) = .error .unexpectedResponses) ∧
    (∀ (a k : Nat),
        get_chunk a (.ok (.ok (.other k))) = .error .unexpectedResponses) ∧
    (∀ (a e : Nat), get_chunk a (.error e) = .error (.network e)) ∧
    (∀ (a e : Nat), get_chunk a (.ok (.error e)) = .error (.network e)) ∧
    (∀ (a e : Nat),
        get_chunk a (.ok (.ok (.getChunk (.error e)))) = .error (.protocolErr e)) := by
  refine ⟨?_, fun a res => rfl, fun a k => rfl, fun a e => rfl, fun a e => rfl,
    fun a e => rfl⟩
  intro a c r
  constructor
  · intro h
    cases r with
    | error e => exact Except.noConfusion h
    | ok inner =>
      cases inner with
      | error e => exact Except.noConfusion h
      | ok q =>
        cases q with
        | getChunk res =>
          cases res with
          | ok c2 =>
            have h2 : (Except.ok c2 : Except ClientError Chunk) = .ok c := h
            injection h2 with hc
            rw [hc]
          | error e => exact Except.noConfusion h
        | getDbcSpend res => exact Except.noConfusion h
        | other k => exact Except.noConfusion h
  · intro h
    subst h
    rfl

/-- Witness for C5: the success characterization evaluated at a concrete
matching payload. -/
theorem getChunk_spec_witness :
    get_chunk 4 (.ok (.ok (.getChunk (.ok ⟨⟨4⟩, 1⟩)))) = .ok ⟨⟨4⟩, 1⟩ :=
  (getChunk_spec.1 4 ⟨⟨4⟩, 1⟩ (.ok (.ok (.getChunk (.ok ⟨⟨4⟩, 1⟩))))).mpr rfl

/-- Counterexample for C6: a connected-event stream that closes after
delivering no connections (five closed-channel receive errors, fewer than
the required `CLOSE_GROUP_SIZE + 1 = 9` connections): the bootstrap wait
loop of `Client::new` has not exited — it produced neither a usable client
nor any `SessionBootstrapFailure` error, because its `if let Ok(event)`
silently skips every receive error and keeps polling. -/
theorem bootstrap_closed_stream_counterexample :
    countConnected (List.replicate 5 RecvResult.recvErr) < 8 + 1 ∧
    bootstrap_wait 8 (List.replicate 5 RecvResult.recvErr) 0 = none := by
  decide

/-- C6 (amended): bootstrap rendezvous of `Client::new`.  The wait loop exits
(and the constructor returns the usable client) exactly when the event stream
delivers at least `close_group_size + 1` connected events; and when the
delivered connected events stay below that bound, any number of further
closed-channel receive errors leaves the loop still waiting — construction
never returns, and in particular no `SessionBootstrapFailure` error is
produced. -/
theorem bootstrap_rendezvous_spec :
    (∀ (cgs : Nat) (evs : List RecvResult),
        bootstrap_wait cgs evs 0 = some () ↔ cgs + 1 ≤ countConnected evs) ∧
    (∀ (cgs k : Nat) (evs : List RecvResult), countConnected evs < cgs + 1 →
        bootstrap_wait cgs (evs ++ List.replicate k .recvErr) 0 = none) := by
  constructor
  · intro cgs evs
    have := bootstrap_wait_char cgs evs 0 (by omega)
    simpa using this
  · intro cgs k evs hlt
    have hc : countConnected (evs ++ List.replicate k .recvErr) = countConnected evs := by
      rw [countConnected_append, countConnected_replicate_err]
      omega
    have hns : ¬ bootstrap_wait cgs (evs ++ List.replicate k .recvErr) 0 = some () := by
      rw [bootstrap_wait_char cgs _ 0 (by omega), hc]
      omega
    cases hres : bootstrap_wait cgs (evs ++ List.replicate k .recvErr) 0 with
    | none => rfl
    | some u => cases u; exact absurd hres hns

/-- Witness for C6: the never-returns branch evaluated with an immediately
closed stream and three receive errors. -/
theorem bootstrap_rendezvous_witness :
    bootstrap_wait 8 ([] ++ List.replicate 3 RecvResult.recvErr) 0 = none :=
  bootstrap_rendezvous_spec.2 8 3 [] (by decide)

/-- C7: the quorum threshold.  The majority function is `floor(n/2) + 1`, so
`majority 1 = 1` and `majority 0 = 1`; consequently both could-not-verify
quorum loops, run over an empty replication group (no dispatched requests,
hence no responses), fail with the quorum-not-reached error carrying count 0
and the threshold — they never falsely succeed. -/
theorem majority_threshold_spec :
    majority 1 = 1 ∧ majority 0 = 1 ∧ (∀ n, majority n = n / 2 + 1) ∧
    (∀ n, expect_closest_majority_ok (majority n) [] 0
        = .error ⟨0, majority n⟩) ∧
    (∀ n dbcId, expect_closest_majority_same dbcId (majority n) [] []
        = .error ⟨0, majority n⟩) :=
  ⟨rfl, rfl, fun _ => rfl, fun _ => rfl, fun _ _ => rfl⟩

/-- C8: `ReplicatedData` addressing.  `name` and `dst` are pure functions of
the value alone (they are total Lean functions of the datum, with no other
arguments), and for every variant the destination network address wraps
exactly the same key that `name` returns. -/
theorem replicatedData_dst_key_eq_name (d : ReplicatedData) :
    d.dst.key = d.name := by
  cases d <;> rfl

/-- C9: `DoubleSpend` evidence invariant.  A `DoubleSpend` value built from
genuine conflict evidence — two distinct certificates claiming the same spend
address — holds an unordered set of certificates that all claim that address,
and the set never has fewer than two elements. -/
theorem doubleSpend_evidence_invariant (a : DbcAddress) (s1 s2 : SignedSpend)
    (hne : s1 ≠ s2) (h1 : spendAddress s1 = a) (h2 : spendAddress s2 = a) :
    mkDoubleSpend a s1 s2 = .doubleSpend a {s1, s2} ∧
    2 ≤ ({s1, s2} : Finset SignedSpend).card ∧
    ∀ s ∈ ({s1, s2} : Finset SignedSpend), spendAddress s = a := by
  refine ⟨rfl, ?_, ?_⟩
  · rw [Finset.card_pair hne]
  · intro s hs
    rcases Finset.mem_insert.mp hs with h | h
    · rw [h]; exact h1
    · rw [Finset.mem_singleton.mp h]; exact h2

/-- Witness for C9: concrete conflicting certificates at address 7. -/
theorem doubleSpend_evidence_witness :
    mkDoubleSpend ⟨7⟩ ⟨7, 0⟩ ⟨7, 1⟩ = .doubleSpend ⟨7⟩ {⟨7, 0⟩, ⟨7, 1⟩} ∧
    2 ≤ ({⟨7, 0⟩, ⟨7, 1⟩} : Finset SignedSpend).card ∧
    spendAddress ⟨7, 0⟩ = ⟨7⟩ ∧ spendAddress ⟨7, 1⟩ = ⟨7⟩ := by
  obtain ⟨ha, hb, hc⟩ :=
    doubleSpend_evidence_invariant ⟨7⟩ ⟨7, 0⟩ ⟨7, 1⟩ (by decide) rfl rfl
  exact ⟨ha, hb, hc ⟨7, 0⟩ (by decide), hc ⟨7, 1⟩ (by decide)⟩

/-- C10: the background network-event loop of `Client::new` treats a closed
channel as a no-op — a closed-channel receive leaves the client state
unchanged in every state, erasing a closed-channel step anywhere in a run
changes nothing, and the event handler itself never fails, so no client
operation can observe a channel-closed failure from this loop. -/
theorem event_loop_closed_channel_noop :
    (∀ st : ClientState, event_loop_step st none = st) ∧
    (∀ (st : ClientState) (pre post : List (Option NetworkEvent)),
        event_loop_run (pre ++ none :: post) st = event_loop_run (pre ++ post) st) ∧
    (∀ (st : ClientState) (e : NetworkEvent), ∃ st2,
        handle_network_event st e = .ok st2) := by
  refine ⟨fun st => rfl, ?_, ?_⟩
  · intro st pre post
    unfold event_loop_run
    rw [List.foldl_append, List.foldl_append, List.foldl_cons]
    rfl
  · intro st e
    cases e with
    | requestReceived req => exact ⟨st, rfl⟩
    | newListenAddr addr => exact ⟨st, rfl⟩
    | peerAdded peer => exact ⟨_, rfl⟩
